import Mathlib

/-!
Verification of the Seplos BMS V3 Modbus RTU passive decoder
(`seplos/serial_snooper.py`): CRC framing, the resynchronizing frame
scanner `_decode_modbus`, the buffering entry point `process_data`, and
the three payload decoders `_process_alarm_status`, `_process_cell_info`
and `_process_main_info`.

Bytes are modelled as `Nat` (values < 256 where it matters, stated as
hypotheses), buffers as `List Nat`, exact decimal arithmetic as `ℚ` with
an explicit `round` (Python's `round(x, n)`; ties, which Python breaks
on binary-float grounds, are modelled half-up — no verified statement
depends on a tie except where noted with a tolerance bound).
-/

set_option maxRecDepth 8000

/-- Modelled from the spec: `calc_crc16` lives in `seplos/utils.py`, which is
not among the provided sources (only its import in `seplos/__init__.py` and
its call sites in `serial_snooper.py` are). Per the spec it is the
Modbus-style 16-bit CRC: polynomial 0xA001, initial register 0xFFFF,
byte-reflected, updated one byte at a time. One shift step of the
reflected algorithm. -/
def crcBit (c : Nat) : Nat :=
  if c % 2 = 1 then (c / 2) ^^^ 0xA001 else c / 2

/-- Modelled from the spec: one byte update of the Modbus CRC — XOR the byte
into the register, then eight reflected shift steps. -/
def crcByte (c b : Nat) : Nat := crcBit^[8] (c ^^^ b)

/-- Modelled from the spec: `calc_crc16(data, length)` — Modbus CRC-16 of the
first `length` bytes of `data`, starting from register 0xFFFF. -/
def calc_crc16 (data : List Nat) (len : Nat) : Nat :=
  (data.take len).foldl crcByte 0xFFFF

/-- Big-endian 16-bit word at byte offset `i`: `(readData[i] << 8) | readData[i+1]`. -/
def wordAt (d : List Nat) (i : Nat) : Nat :=
  (d.getD i 0) <<< 8 ||| d.getD (i + 1) 0

/-- Single flag bit `(readData[i] >> j) & 1`. -/
def bitAt (d : List Nat) (i j : Nat) : Nat :=
  (d.getD i 0 >>> j) &&& 1

/-- `bin(x).count('1')` of a 16-bit quantity (`balancing_bits` is built from
two bytes, so for in-range input this is the full population count). -/
def popcount16 (n : Nat) : Nat :=
  ((List.range 16).filter (fun i => n.testBit i)).length

/-- `[i+1 for i in range(16) if (balancing_bits >> i) & 1]`. -/
def balancingCells (bits : Nat) : List Nat :=
  ((List.range 16).filter (fun i => (bits >>> i) &&& 1 = 1)).map (· + 1)

/-- The operating-status if-chain over byte 8 of the AlarmStatus payload
(`serial_snooper.py` lines 337-343). -/
def statusOf (b : Nat) : String :=
  if (b >>> 0) &&& 1 = 1 then "Discharge"
  else if (b >>> 1) &&& 1 = 1 then "Charge"
  else if (b >>> 2) &&& 1 = 1 then "Floating charge"
  else if (b >>> 3) &&& 1 = 1 then "Full charge"
  else if (b >>> 4) &&& 1 = 1 then "Standby"
  else if (b >>> 5) &&& 1 = 1 then "Off"
  else "Unknown"

/-- The status labels in their fixed priority order, bit 0 first. -/
def statusNames : List String :=
  ["Discharge", "Charge", "Floating charge", "Full charge", "Standby", "Off"]

/-- Spec-side reformulation of the status decode: the label of the least set
bit among bits 0..5, `"Unknown"` when none is set. -/
def firstBitStatus (b : Nat) : String :=
  match (List.range 6).find? (fun i => b.testBit i) with
  | some i => statusNames.getD i "Unknown"
  | none => "Unknown"

/-- All values published by `_process_alarm_status` (18-byte FC01 payload). -/
structure AlarmRecord where
  cell_undervolt : Nat
  cell_overvolt : Nat
  cell_temp_alarm : Nat
  balancing_bits : Nat
  balancing_count : Nat
  balancing_cells : List Nat
  status : String
  fet_discharge : Nat
  fet_charge : Nat
  fet_current_limit : Nat
  fet_heater : Nat
  balancing_active : Nat
  heating_active : Nat
  alarm_count : Nat
  protection_count : Nat
  failure_count : Nat
  deriving DecidableEq, Repr

/-- `_process_alarm_status` (`serial_snooper.py` lines 309-445), as the record
of published values. Byte accesses follow the source line by line; the
alarm/protection/failure sums list exactly the named bits of the source in
source order. -/
def processAlarmStatus (d : List Nat) : AlarmRecord :=
  { cell_undervolt := (d.getD 1 0) <<< 8 ||| d.getD 0 0
    cell_overvolt := (d.getD 3 0) <<< 8 ||| d.getD 2 0
    cell_temp_alarm := (d.getD 5 0) <<< 8 ||| d.getD 4 0
    balancing_bits := (d.getD 7 0) <<< 8 ||| d.getD 6 0
    balancing_count := popcount16 ((d.getD 7 0) <<< 8 ||| d.getD 6 0)
    balancing_cells := balancingCells ((d.getD 7 0) <<< 8 ||| d.getD 6 0)
    status := statusOf (d.getD 8 0)
    fet_discharge := bitAt d 15 0
    fet_charge := bitAt d 15 1
    fet_current_limit := bitAt d 15 2
    fet_heater := bitAt d 15 3
    balancing_active := bitAt d 16 0
    heating_active := bitAt d 11 6
    alarm_count :=
      ([bitAt d 9 0, bitAt d 9 1, bitAt d 9 2, bitAt d 9 3,
        bitAt d 9 4, bitAt d 9 5, bitAt d 9 6, bitAt d 9 7,
        bitAt d 10 0, bitAt d 10 1, bitAt d 10 2, bitAt d 10 3,
        bitAt d 10 4, bitAt d 10 5, bitAt d 10 6, bitAt d 10 7,
        bitAt d 11 0, bitAt d 11 1, bitAt d 11 4, bitAt d 11 5,
        bitAt d 12 0, bitAt d 12 1, bitAt d 12 3, bitAt d 12 4,
        bitAt d 12 6, bitAt d 14 2, bitAt d 14 4]).sum
    protection_count :=
      ([bitAt d 9 1, bitAt d 9 3, bitAt d 9 5, bitAt d 9 7,
        bitAt d 10 1, bitAt d 10 3, bitAt d 10 5, bitAt d 10 7,
        bitAt d 11 1, bitAt d 11 5,
        bitAt d 12 1, bitAt d 12 2, bitAt d 12 4, bitAt d 12 5,
        bitAt d 12 6, bitAt d 14 3]).sum
    failure_count :=
      ([bitAt d 17 0, bitAt d 17 1, bitAt d 17 2, bitAt d 17 3,
        bitAt d 17 4]).sum }

/-- The alarm-count bit positions, as `(byte, bit)` pairs, in the order the
source sums them (lines 406-414). -/
def alarmIdx : List (Nat × Nat) :=
  [(9,0),(9,1),(9,2),(9,3),(9,4),(9,5),(9,6),(9,7),
   (10,0),(10,1),(10,2),(10,3),(10,4),(10,5),(10,6),(10,7),
   (11,0),(11,1),(11,4),(11,5),
   (12,0),(12,1),(12,3),(12,4),(12,6),(14,2),(14,4)]

/-- The protection-count bit positions, in source order (lines 418-427). -/
def protIdx : List (Nat × Nat) :=
  [(9,1),(9,3),(9,5),(9,7),(10,1),(10,3),(10,5),(10,7),
   (11,1),(11,5),(12,1),(12,2),(12,4),(12,5),(12,6),(14,3)]

/-- Python `round(q, 1)` on an exact rational (ties half-up). -/
def round1 (q : ℚ) : ℚ := (round (q * 10) : ℤ) / 10

/-- Python `round(q, 2)` on an exact rational (ties half-up). -/
def round2 (q : ℚ) : ℚ := (round (q * 100) : ℤ) / 100

/-- Python `round(q, 3)` on an exact rational (ties half-up). -/
def round3 (q : ℚ) : ℚ := (round (q * 1000) : ℤ) / 1000

/-- Two's-complement reinterpretation of a 16-bit word:
`w if w <= 32767 else w - 65536`. -/
def signed16 (w : Nat) : ℤ :=
  if w ≤ 32767 then (w : ℤ) else (w : ℤ) - 65536

/-- All values published by `_process_main_info` (36-byte FC04 payload). -/
structure MainRecord where
  pack_voltage : ℚ
  current : ℚ
  remaining_capacity : ℚ
  total_capacity : ℚ
  total_discharge_capacity : Nat
  soc : ℚ
  soh : ℚ
  cycles : Nat
  average_cell_voltage : ℚ
  average_cell_temp : ℚ
  max_cell_voltage : ℚ
  min_cell_voltage : ℚ
  max_cell_temp : ℚ
  min_cell_temp : ℚ
  maxdiscurt : Nat
  maxchgcurt : Nat
  power : ℤ
  cell_delta : ℤ
  deriving DecidableEq

/-- `readDataNumber[i]` of `_process_main_info`: the big-endian word built
from bytes `2*i` and `2*i+1`. -/
def mainWord (d : List Nat) (i : Nat) : Nat := wordAt d (2 * i)

/-- `_process_main_info` (`serial_snooper.py` lines 484-513), as the record
of published values; each field mirrors the source formula. -/
def processMainInfo (d : List Nat) : MainRecord :=
  let current_decimal : ℤ :=
    if mainWord d 1 ≤ 32767 then (mainWord d 1 : ℤ) else (mainWord d 1 : ℤ) - 65536
  let pack_voltage := round2 ((mainWord d 0 : ℚ) / 100)
  let current := round2 ((current_decimal : ℚ) / 100)
  { pack_voltage := pack_voltage
    current := current
    remaining_capacity := round2 ((mainWord d 2 : ℚ) / 100)
    total_capacity := round2 ((mainWord d 3 : ℚ) / 100)
    total_discharge_capacity := mainWord d 4 * 10
    soc := round1 ((mainWord d 5 : ℚ) / 10)
    soh := round1 ((mainWord d 6 : ℚ) / 10)
    cycles := mainWord d 7
    average_cell_voltage := round3 ((mainWord d 8 : ℚ) / 1000)
    average_cell_temp := round1 ((mainWord d 9 : ℚ) / 10 - 273.15)
    max_cell_voltage := round3 ((mainWord d 10 : ℚ) / 1000)
    min_cell_voltage := round3 ((mainWord d 11 : ℚ) / 1000)
    max_cell_temp := round1 ((mainWord d 12 : ℚ) / 10 - 273.15)
    min_cell_temp := round1 ((mainWord d 13 : ℚ) / 10 - 273.15)
    maxdiscurt := mainWord d 15
    maxchgcurt := mainWord d 16
    power := round (-current * pack_voltage)
    cell_delta := (mainWord d 10 : ℤ) - (mainWord d 11 : ℤ) }

/-- All values published by `_process_cell_info` (52-byte FC04 payload). -/
structure CellRecord where
  cells : List ℚ
  cell_temps : List ℚ
  ambient_temp : ℚ
  mosfet_temp : ℚ
  deriving DecidableEq

/-- `_process_cell_info` (`serial_snooper.py` lines 447-478): 16 cell
voltages from bytes 0-31, 4 cell temperatures from bytes 32-39, ambient
temperature from bytes 48-49, MOSFET temperature from bytes 50-51. -/
def processCellInfo (d : List Nat) : CellRecord :=
  { cells := (List.range 16).map (fun k => round3 ((wordAt d (2 * k) : ℚ) / 1000))
    cell_temps :=
      (List.range 4).map (fun j => round1 ((wordAt d (32 + 2 * j) : ℚ) / 10 - 273.15))
    ambient_temp := round1 ((wordAt d 48 : ℚ) / 10 - 273.15)
    mosfet_temp := round1 ((wordAt d 50 : ℚ) / 10 - 273.15) }

/-- Header data of a validated candidate frame: unit id, function code, byte
count, and the payload bytes `modbusdata[3 : 3+bc]`. -/
structure FrameInfo where
  u : Nat
  fc : Nat
  bc : Nat
  payload : List Nat
  deriving DecidableEq, Repr

/-- Outcome of one scan attempt of the `while True` loop of `_decode_modbus`
at the current buffer head: wait for more bytes, discard one byte, or accept
a CRC-validated frame. -/
inductive ScanResult where
  | needMore : ScanResult
  | trash : ScanResult
  | frame (fi : FrameInfo) : ScanResult
  deriving DecidableEq, Repr

/-- One scan attempt of `_decode_modbus` (lines 205-295), at the head of the
(re-sliced) buffer: requires `len > 2` to read the header; on function code
1 or 4 requires 7 bytes, reads the byte count, requires the full candidate
`5 + bc` bytes, and compares the Modbus CRC of the first `3 + bc` bytes with
the two trailing bytes read high byte first; any other function code (or a
CRC mismatch) discards one byte. -/
def scanStep (buf : List Nat) : ScanResult :=
  if 2 < buf.length then
    if buf.getD 1 0 = 1 ∨ buf.getD 1 0 = 4 then
      if 7 ≤ buf.length then
        if 5 + buf.getD 2 0 ≤ buf.length then
          if buf.getD (3 + buf.getD 2 0) 0 * 0x0100 + buf.getD (4 + buf.getD 2 0) 0 =
              calc_crc16 buf (3 + buf.getD 2 0) then
            ScanResult.frame
              ⟨buf.getD 0 0, buf.getD 1 0, buf.getD 2 0, (buf.drop 3).take (buf.getD 2 0)⟩
          else ScanResult.trash
        else ScanResult.needMore
      else ScanResult.needMore
    else ScanResult.trash
  else ScanResult.needMore

/-- `True` exactly when the scan attempt validates a frame at the buffer head. -/
def accepts (buf : List Nat) : Prop :=
  ∃ fi, scanStep buf = ScanResult.frame fi

instance (buf : List Nat) : Decidable (accepts buf) := by
  unfold accepts
  cases h : scanStep buf with
  | needMore => exact isFalse (by simp [h])
  | trash => exact isFalse (by simp [h])
  | frame fi => exact isTrue ⟨fi, rfl⟩

/-- A decoded-record emission: one call of `_process_alarm_status`,
`_process_cell_info` or `_process_main_info` with its unit id and payload. -/
inductive Rec where
  | alarm (u : Nat) (payload : List Nat) : Rec
  | cellInfo (u : Nat) (payload : List Nat) : Rec
  | mainInfo (u : Nat) (payload : List Nat) : Rec
  deriving DecidableEq, Repr

/-- The record emissions of a validated frame, per the dispatch of
`_decode_modbus`: FC01 with 18 bytes, FC04 with 52 bytes, FC04 with
36 bytes; any other validated combination emits nothing. -/
def recordsFor (fi : FrameInfo) : List Rec :=
  if fi.fc = 1 then
    if fi.bc = 18 then [Rec.alarm fi.u fi.payload] else []
  else if fi.fc = 4 then
    (if fi.bc = 52 then [Rec.cellInfo fi.u fi.payload] else []) ++
    (if fi.bc = 36 then [Rec.mainInfo fi.u fi.payload] else [])
  else []

/-- The trash-run state of the snooper: `self.trashdata` (a run is open) and
the discarded bytes accumulated in the `self.trashdataf` message. -/
structure TrashState where
  trashdata : Bool
  trashdataf : List Nat
  deriving DecidableEq, Repr

/-- The fresh snooper trash state (lines 32-33). -/
def initTS : TrashState := ⟨false, []⟩

/-- Discarding one byte (lines 299-304): append to the open run, or start a
new run with just this byte. -/
def pushTrash (ts : TrashState) (b : Nat) : TrashState :=
  if ts.trashdata then ⟨true, ts.trashdataf ++ [b]⟩ else ⟨true, [b]⟩

/-- `pushTrash` folded over a run of bytes. -/
def pushAll (ts : TrashState) (l : List Nat) : TrashState :=
  l.foldl pushTrash ts

/-- On a validated frame (lines 241-243 / 275-277): an open run is closed
(the `"]"` append completes the diagnostic entry) and the completed entry is
reported; with no open run nothing happens. -/
def closeRun (ts : TrashState) : List (List Nat) × TrashState :=
  if ts.trashdata then ([ts.trashdataf], ⟨false, ts.trashdataf⟩) else ([], ts)

/-- Output of a decode pass: emitted records, completed trash entries, final
trash state, and the unconsumed buffer returned by `_decode_modbus`. -/
abbrev DecodeOut := List Rec × List (List Nat) × TrashState × List Nat

/-- Fuel-indexed body of the `while True` loop of `_decode_modbus`: each
iteration consumes at least one byte, so `buf.length + 1` fuel always
reaches the `needMoreData` exit. -/
def decodeAux : Nat → TrashState → List Nat → DecodeOut
  | 0, ts, buf => ([], [], ts, buf)
  | fuel + 1, ts, buf =>
    match scanStep buf with
    | ScanResult.needMore => ([], [], ts, buf)
    | ScanResult.trash => decodeAux fuel (pushTrash ts (buf.headD 0)) buf.tail
    | ScanResult.frame fi =>
      let p := closeRun ts
      let q := decodeAux fuel p.2 (buf.drop (5 + fi.bc))
      (recordsFor fi ++ q.1, p.1 ++ q.2.1, q.2.2.1, q.2.2.2)

/-- `_decode_modbus(data)`: run scan attempts from the buffer head until
`needMoreData`, emitting records and trash entries along the way. -/
def decodeModbus (ts : TrashState) (buf : List Nat) : DecodeOut :=
  decodeAux (buf.length + 1) ts buf

/-- The mutable state of `process_data`: the accumulated byte buffer
`self.data` plus the trash-run state. -/
structure SnoopState where
  data : List Nat
  ts : TrashState
  deriving DecidableEq, Repr

/-- Fresh snooper state (lines 31-33). -/
def initState : SnoopState := ⟨[], initTS⟩

/-- `process_data(data)` (lines 90-97): an empty chunk is the idle signal and
triggers a decode pass when more than 2 bytes are buffered; a non-empty
chunk is appended. Returns the new state with the emitted records and
completed trash entries. -/
def processData (st : SnoopState) (chunk : List Nat) :
    SnoopState × List Rec × List (List Nat) :=
  if chunk.length = 0 then
    if 2 < st.data.length then
      let r := decodeModbus st.ts st.data
      (⟨r.2.2.2, r.2.2.1⟩, r.1, r.2.1)
    else (st, [], [])
  else (⟨st.data ++ chunk, st.ts⟩, [], [])

/-- Run `process_data` over a whole sequence of chunks (`[]` = idle signal),
collecting all emitted records in order. -/
def runFeeds : SnoopState → List (List Nat) → SnoopState × List Rec
  | st, [] => (st, [])
  | st, c :: cs =>
    let p := processData st c
    let q := runFeeds p.1 cs
    (q.1, p.2.1 ++ q.2)

/-- A correctly framed message: header `[u, fc, len(payload)]`, the payload,
then the Modbus CRC of the first `3 + len(payload)` bytes, high byte first
(the byte order `_decode_modbus` checks against). -/
def mkFrame (u fc : Nat) (payload : List Nat) : List Nat :=
  let body := [u, fc, payload.length] ++ payload
  let c := calc_crc16 body (3 + payload.length)
  body ++ [c / 256, c % 256]

/-! ### Basic facts about one scan attempt -/

theorem scanStep_short {buf : List Nat} (h : buf.length ≤ 2) :
    scanStep buf = ScanResult.needMore := by
  unfold scanStep
  rw [if_neg (by omega)]

theorem scanStep_trash_length {buf : List Nat} (h : scanStep buf = ScanResult.trash) :
    2 < buf.length := by
  by_contra hc
  rw [scanStep_short (by omega)] at h
  exact ScanResult.noConfusion h

theorem scanStep_frame_facts {buf : List Nat} {fi : FrameInfo}
    (h : scanStep buf = ScanResult.frame fi) :
    2 < buf.length ∧ fi.bc = buf.getD 2 0 ∧ 5 + fi.bc ≤ buf.length := by
  unfold scanStep at h
  split at h
  · split at h
    · split at h
      · split at h
        · split at h
          · exact ⟨by assumption, by cases h; rfl, by cases h; assumption⟩
          · exact ScanResult.noConfusion h
        · exact ScanResult.noConfusion h
      · exact ScanResult.noConfusion h
    · exact ScanResult.noConfusion h
  · exact ScanResult.noConfusion h

theorem scanStep_frame_payload {buf : List Nat} {fi : FrameInfo}
    (h : scanStep buf = ScanResult.frame fi) :
    fi.u = buf.getD 0 0 ∧ fi.fc = buf.getD 1 0 ∧
      fi.payload = (buf.drop 3).take fi.bc := by
  unfold scanStep at h
  split at h
  · split at h
    · split at h
      · split at h
        · split at h
          · exact ⟨by cases h; rfl, by cases h; rfl, by cases h; rfl⟩
          · exact ScanResult.noConfusion h
        · exact ScanResult.noConfusion h
      · exact ScanResult.noConfusion h
    · exact ScanResult.noConfusion h
  · exact ScanResult.noConfusion h

/-! ### Fuel irrelevance and unfolding equations for the decode loop -/

theorem decodeAux_congr :
    ∀ (f₁ f₂ : Nat) (ts : TrashState) (buf : List Nat),
      buf.length < f₁ → buf.length < f₂ →
      decodeAux f₁ ts buf = decodeAux f₂ ts buf := by
  intro f₁
  induction f₁ with
  | zero => intro f₂ ts buf h₁ _; omega
  | succ n IH =>
    intro f₂ ts buf h₁ h₂
    match f₂, h₂ with
    | m + 1, h₂ =>
      show decodeAux (n + 1) ts buf = decodeAux (m + 1) ts buf
      unfold decodeAux
      cases hs : scanStep buf with
      | needMore => rfl
      | trash =>
        have hl := scanStep_trash_length hs
        have ht : buf.tail.length = buf.length - 1 := List.length_tail buf
        dsimp only
        exact IH m (pushTrash ts (buf.headD 0)) buf.tail (by omega) (by omega)
      | frame fi =>
        obtain ⟨hl, _, hle⟩ := scanStep_frame_facts hs
        have hd : (buf.drop (5 + fi.bc)).length = buf.length - (5 + fi.bc) :=
          List.length_drop _ _
        have heq : decodeAux n (closeRun ts).2 (buf.drop (5 + fi.bc)) =
            decodeAux m (closeRun ts).2 (buf.drop (5 + fi.bc)) := by
          apply IH <;> omega
        dsimp only
        rw [heq]

theorem decodeModbus_needMore {buf : List Nat} (ts : TrashState)
    (h : scanStep buf = ScanResult.needMore) :
    decodeModbus ts buf = ([], [], ts, buf) := by
  unfold decodeModbus decodeAux
  rw [h]

theorem decodeModbus_trash {buf : List Nat} (ts : TrashState)
    (h : scanStep buf = ScanResult.trash) :
    decodeModbus ts buf = decodeModbus (pushTrash ts (buf.headD 0)) buf.tail := by
  have hl := scanStep_trash_length h
  have ht : buf.tail.length = buf.length - 1 := List.length_tail buf
  unfold decodeModbus
  conv =>
    lhs
    unfold decodeAux
  rw [h]
  dsimp only
  exact decodeAux_congr _ _ _ _ (by omega) (by omega)

theorem decodeModbus_frame {buf : List Nat} {fi : FrameInfo} (ts : TrashState)
    (h : scanStep buf = ScanResult.frame fi) :
    decodeModbus ts buf =
      (recordsFor fi ++ (decodeModbus (closeRun ts).2 (buf.drop (5 + fi.bc))).1,
       (closeRun ts).1 ++ (decodeModbus (closeRun ts).2 (buf.drop (5 + fi.bc))).2.1,
       (decodeModbus (closeRun ts).2 (buf.drop (5 + fi.bc))).2.2.1,
       (decodeModbus (closeRun ts).2 (buf.drop (5 + fi.bc))).2.2.2) := by
  obtain ⟨hl, _, hle⟩ := scanStep_frame_facts h
  have hd : (buf.drop (5 + fi.bc)).length = buf.length - (5 + fi.bc) :=
    List.length_drop _ _
  unfold decodeModbus
  conv =>
    lhs
    unfold decodeAux
  rw [h]
  dsimp only
  rw [decodeAux_congr buf.length ((buf.drop (5 + fi.bc)).length + 1)
    (closeRun ts).2 (buf.drop (5 + fi.bc)) (by omega) (by omega)]

/-! ### Scan decisions are stable under appending data

A `trash` or `frame` decision reads only bytes that are already present, so
feeding more data afterwards cannot change it; only `needMore` can evolve. -/

theorem calc_crc16_append {buf ys : List Nat} {k : Nat} (h : k ≤ buf.length) :
    calc_crc16 (buf ++ ys) k = calc_crc16 buf k := by
  unfold calc_crc16
  rw [List.take_append_of_le_length h]

theorem scanStep_append_of_trash {buf : List Nat} (ys : List Nat)
    (h : scanStep buf = ScanResult.trash) :
    scanStep (buf ++ ys) = ScanResult.trash := by
  have hl : 2 < buf.length := scanStep_trash_length h
  have hl' : 2 < (buf ++ ys).length := by rw [List.length_append]; omega
  have hg1 : (buf ++ ys).getD 1 0 = buf.getD 1 0 := List.getD_append _ _ _ _ (by omega)
  unfold scanStep at h ⊢
  rw [if_pos hl] at h
  rw [if_pos hl', hg1]
  by_cases hfc : buf.getD 1 0 = 1 ∨ buf.getD 1 0 = 4
  · rw [if_pos hfc] at h ⊢
    by_cases h7 : 7 ≤ buf.length
    · rw [if_pos h7] at h
      rw [if_pos (by rw [List.length_append]; omega)]
      have hg2 : (buf ++ ys).getD 2 0 = buf.getD 2 0 := List.getD_append _ _ _ _ (by omega)
      rw [hg2]
      by_cases hbc : 5 + buf.getD 2 0 ≤ buf.length
      · rw [if_pos hbc] at h
        rw [if_pos (by rw [List.length_append]; omega)]
        have hg3 : (buf ++ ys).getD (3 + buf.getD 2 0) 0 = buf.getD (3 + buf.getD 2 0) 0 :=
          List.getD_append _ _ _ _ (by omega)
        have hg4 : (buf ++ ys).getD (4 + buf.getD 2 0) 0 = buf.getD (4 + buf.getD 2 0) 0 :=
          List.getD_append _ _ _ _ (by omega)
        rw [hg3, hg4, calc_crc16_append (by omega)]
        by_cases hcrc : buf.getD (3 + buf.getD 2 0) 0 * 0x0100 + buf.getD (4 + buf.getD 2 0) 0 =
            calc_crc16 buf (3 + buf.getD 2 0)
        · rw [if_pos hcrc] at h
          exact ScanResult.noConfusion h
        · rw [if_neg hcrc]
      · rw [if_neg hbc] at h
        exact ScanResult.noConfusion h
    · rw [if_neg h7] at h
      exact ScanResult.noConfusion h
  · rw [if_neg hfc]

theorem scanStep_append_of_frame {buf : List Nat} {fi : FrameInfo} (ys : List Nat)
    (h : scanStep buf = ScanResult.frame fi) :
    scanStep (buf ++ ys) = ScanResult.frame fi := by
  obtain ⟨hl, hbc, hle⟩ := scanStep_frame_facts h
  have hl' : 2 < (buf ++ ys).length := by rw [List.length_append]; omega
  have hg0 : (buf ++ ys).getD 0 0 = buf.getD 0 0 := List.getD_append _ _ _ _ (by omega)
  have hg1 : (buf ++ ys).getD 1 0 = buf.getD 1 0 := List.getD_append _ _ _ _ (by omega)
  have hg2 : (buf ++ ys).getD 2 0 = buf.getD 2 0 := List.getD_append _ _ _ _ (by omega)
  unfold scanStep at h ⊢
  rw [if_pos hl] at h
  rw [if_pos hl', hg0, hg1, hg2]
  by_cases hfc : buf.getD 1 0 = 1 ∨ buf.getD 1 0 = 4
  · rw [if_pos hfc] at h ⊢
    by_cases h7 : 7 ≤ buf.length
    · rw [if_pos h7] at h
      rw [if_pos (by rw [List.length_append]; omega)]
      by_cases hb5 : 5 + buf.getD 2 0 ≤ buf.length
      · rw [if_pos hb5] at h
        rw [if_pos (by rw [List.length_append]; omega)]
        have hg3 : (buf ++ ys).getD (3 + buf.getD 2 0) 0 = buf.getD (3 + buf.getD 2 0) 0 :=
          List.getD_append _ _ _ _ (by omega)
        have hg4 : (buf ++ ys).getD (4 + buf.getD 2 0) 0 = buf.getD (4 + buf.getD 2 0) 0 :=
          List.getD_append _ _ _ _ (by omega)
        have hpl : ((buf ++ ys).drop 3).take (buf.getD 2 0) = (buf.drop 3).take (buf.getD 2 0) := by
          rw [List.drop_append_of_le_length (by omega),
            List.take_append_of_le_length (by rw [List.length_drop]; omega)]
        rw [hg3, hg4, calc_crc16_append (by omega), hpl]
        by_cases hcrc : buf.getD (3 + buf.getD 2 0) 0 * 0x0100 + buf.getD (4 + buf.getD 2 0) 0 =
            calc_crc16 buf (3 + buf.getD 2 0)
        · rw [if_pos hcrc] at h ⊢
          exact h
        · rw [if_neg hcrc] at h
          exact ScanResult.noConfusion h
      · rw [if_neg hb5] at h
        exact ScanResult.noConfusion h
    · rw [if_neg h7] at h
      exact ScanResult.noConfusion h
  · rw [if_neg hfc] at h
    exact ScanResult.noConfusion h

/-! ### Incremental decoding: a pass decomposes over appended input -/

theorem decodeModbus_append_aux :
    ∀ (n : Nat) (ts : TrashState) (buf ys : List Nat), buf.length ≤ n →
      decodeModbus ts (buf ++ ys) =
        ((decodeModbus ts buf).1 ++
            (decodeModbus (decodeModbus ts buf).2.2.1 ((decodeModbus ts buf).2.2.2 ++ ys)).1,
         (decodeModbus ts buf).2.1 ++
            (decodeModbus (decodeModbus ts buf).2.2.1 ((decodeModbus ts buf).2.2.2 ++ ys)).2.1,
         (decodeModbus (decodeModbus ts buf).2.2.1 ((decodeModbus ts buf).2.2.2 ++ ys)).2.2.1,
         (decodeModbus (decodeModbus ts buf).2.2.1 ((decodeModbus ts buf).2.2.2 ++ ys)).2.2.2) := by
  intro n
  induction n with
  | zero =>
    intro ts buf ys hn
    have hb : buf = [] := List.length_eq_zero.mp (by omega)
    subst hb
    have h0 : decodeModbus ts [] = ([], [], ts, []) :=
      decodeModbus_needMore ts (scanStep_short (by simp))
    rw [h0]
    simp
  | succ n IH =>
    intro ts buf ys hn
    cases hs : scanStep buf with
    | needMore =>
      rw [decodeModbus_needMore ts hs]
      simp
    | trash =>
      have hl := scanStep_trash_length hs
      have ht : buf.tail.length = buf.length - 1 := List.length_tail buf
      have hne : buf ≠ [] := by intro hb; subst hb; simp at hl
      have hhead : (buf ++ ys).headD 0 = buf.headD 0 := by
        cases buf with
        | nil => exact absurd rfl hne
        | cons a l => rfl
      have htail : (buf ++ ys).tail = buf.tail ++ ys := by
        cases buf with
        | nil => exact absurd rfl hne
        | cons a l => rfl
      rw [decodeModbus_trash ts (scanStep_append_of_trash ys hs), hhead, htail,
        decodeModbus_trash ts hs]
      exact IH (pushTrash ts (buf.headD 0)) buf.tail ys (by omega)
    | frame fi =>
      obtain ⟨hl, _, hle⟩ := scanStep_frame_facts hs
      have hD : (buf ++ ys).drop (5 + fi.bc) = buf.drop (5 + fi.bc) ++ ys :=
        List.drop_append_of_le_length (by omega)
      have hd : (buf.drop (5 + fi.bc)).length = buf.length - (5 + fi.bc) :=
        List.length_drop _ _
      rw [decodeModbus_frame ts (scanStep_append_of_frame ys hs), hD,
        decodeModbus_frame ts hs]
      rw [IH (closeRun ts).2 (buf.drop (5 + fi.bc)) ys (by omega)]
      simp [List.append_assoc]

theorem decodeModbus_append (ts : TrashState) (buf ys : List Nat) :
    decodeModbus ts (buf ++ ys) =
      ((decodeModbus ts buf).1 ++
          (decodeModbus (decodeModbus ts buf).2.2.1 ((decodeModbus ts buf).2.2.2 ++ ys)).1,
       (decodeModbus ts buf).2.1 ++
          (decodeModbus (decodeModbus ts buf).2.2.1 ((decodeModbus ts buf).2.2.2 ++ ys)).2.1,
       (decodeModbus (decodeModbus ts buf).2.2.1 ((decodeModbus ts buf).2.2.2 ++ ys)).2.2.1,
       (decodeModbus (decodeModbus ts buf).2.2.1 ((decodeModbus ts buf).2.2.2 ++ ys)).2.2.2) :=
  decodeModbus_append_aux buf.length ts buf ys (le_refl _)

/-! ### The `process_data` entry point -/

theorem processData_idle (st : SnoopState) :
    processData st [] =
      (⟨(decodeModbus st.ts st.data).2.2.2, (decodeModbus st.ts st.data).2.2.1⟩,
       (decodeModbus st.ts st.data).1, (decodeModbus st.ts st.data).2.1) := by
  unfold processData
  by_cases h : 2 < st.data.length
  · simp [h]
  · have hs := decodeModbus_needMore st.ts (scanStep_short (Nat.le_of_not_lt h))
    simp [h, hs]

theorem processData_feed (st : SnoopState) {c : List Nat} (hc : c ≠ []) :
    processData st c = (⟨st.data ++ c, st.ts⟩, [], []) := by
  unfold processData
  rw [if_neg (by simpa using hc)]

theorem runFeeds_absorb :
    ∀ (ops : List (List Nat)) (st : SnoopState),
      (runFeeds st (ops ++ [[]])).2 = (decodeModbus st.ts (st.data ++ ops.flatten)).1 := by
  intro ops
  induction ops with
  | nil =>
    intro st
    show (runFeeds st [[]]).2 = _
    unfold runFeeds
    rw [processData_idle]
    unfold runFeeds
    simp
  | cons c cs IH =>
    intro st
    cases c with
    | nil =>
      show (runFeeds st ([] :: (cs ++ [[]]))).2 = _
      unfold runFeeds
      rw [processData_idle]
      dsimp only
      rw [IH]
      dsimp only
      rw [List.flatten_cons, List.nil_append, decodeModbus_append st.ts st.data cs.flatten]
    | cons b bs =>
      show (runFeeds st ((b :: bs) :: (cs ++ [[]]))).2 = _
      unfold runFeeds
      rw [processData_feed st (by simp)]
      dsimp only
      rw [IH]
      dsimp only
      rw [List.flatten_cons, ← List.append_assoc]
      simp

/-! ### Runs of unparseable bytes -/

theorem scanStep_junk {buf : List Nat} (hl : 2 < buf.length)
    (h1 : buf.getD 1 0 ≠ 1) (h4 : buf.getD 1 0 ≠ 4) :
    scanStep buf = ScanResult.trash := by
  unfold scanStep
  rw [if_pos hl, if_neg (by tauto)]

theorem pushAll_cons (ts : TrashState) (b : Nat) (l : List Nat) :
    pushAll ts (b :: l) = pushAll (pushTrash ts b) l := rfl

theorem pushAll_open :
    ∀ (l : List Nat) (r : List Nat), pushAll ⟨true, r⟩ l = ⟨true, r ++ l⟩ := by
  intro l
  induction l with
  | nil => intro r; simp [pushAll]
  | cons b bs IH =>
    intro r
    rw [pushAll_cons, show pushTrash ⟨true, r⟩ b = ⟨true, r ++ [b]⟩ from rfl, IH]
    simp

theorem pushAll_initTS {l : List Nat} (h : l ≠ []) : pushAll initTS l = ⟨true, l⟩ := by
  cases l with
  | nil => exact absurd rfl h
  | cons b bs =>
    rw [pushAll_cons, show pushTrash initTS b = ⟨true, [b]⟩ from rfl, pushAll_open]
    simp

theorem decodeModbus_junk_run :
    ∀ (a : List Nat) (ts : TrashState) (rest : List Nat),
      (∀ b ∈ a, b ≠ 1 ∧ b ≠ 4) →
      rest.getD 0 0 ≠ 1 → rest.getD 0 0 ≠ 4 → 2 ≤ rest.length →
      decodeModbus ts (a ++ rest) = decodeModbus (pushAll ts a) rest := by
  intro a
  induction a with
  | nil => intro ts rest _ _ _ _; simp [pushAll]
  | cons b bs IH =>
    intro ts rest hj h1 h4 hr
    have hfc : (bs ++ rest).getD 0 0 ≠ 1 ∧ (bs ++ rest).getD 0 0 ≠ 4 := by
      cases bs with
      | nil => exact ⟨h1, h4⟩
      | cons x xs =>
        have hx : x ∈ b :: x :: xs := by simp
        exact ⟨(hj x hx).1, (hj x hx).2⟩
    have hstep : scanStep (b :: (bs ++ rest)) = ScanResult.trash := by
      apply scanStep_junk
      · simp only [List.length_cons, List.length_append]
        omega
      · simpa using hfc.1
      · simpa using hfc.2
    rw [List.cons_append, decodeModbus_trash ts hstep]
    simp only [List.headD_cons, List.tail_cons]
    rw [IH (pushTrash ts b) rest (fun x hx => hj x (by simp [hx])) h1 h4 hr,
      pushAll_cons]

theorem decodeModbus_junk {buf : List Nat} (ts : TrashState)
    (hj : ∀ b ∈ buf, b ≠ 1 ∧ b ≠ 4) (hl : 3 ≤ buf.length) :
    decodeModbus ts buf =
      ([], [], pushAll ts (buf.take (buf.length - 2)), buf.drop (buf.length - 2)) := by
  have hsplit : buf = buf.take (buf.length - 2) ++ buf.drop (buf.length - 2) :=
    (List.take_append_drop _ _).symm
  have hdlen : (buf.drop (buf.length - 2)).length = 2 := by
    rw [List.length_drop]; omega
  have hmem : ∀ b ∈ buf.drop (buf.length - 2), b ≠ 1 ∧ b ≠ 4 := by
    intro b hb
    exact hj b (List.drop_subset _ _ hb)
  have hget : (buf.drop (buf.length - 2)).getD 0 0 ∈ buf.drop (buf.length - 2) := by
    rw [List.getD_eq_getElem _ _ (by omega)]
    exact List.getElem_mem _
  conv =>
    lhs
    rw [hsplit]
  rw [decodeModbus_junk_run (buf.take (buf.length - 2)) ts (buf.drop (buf.length - 2))
    (fun b hb => hj b (List.take_subset _ _ hb))
    (hmem _ hget).1 (hmem _ hget).2 (by omega)]
  exact decodeModbus_needMore _ (scanStep_short (by omega))

/-! ### Rounding facts -/

theorem round2_div100 (z : ℤ) : round2 ((z : ℚ) / 100) = (z : ℚ) / 100 := by
  unfold round2
  rw [div_mul_cancel₀ _ (by norm_num : (100 : ℚ) ≠ 0), round_intCast]

theorem round2_natDiv100 (n : Nat) : round2 ((n : ℚ) / 100) = (n : ℚ) / 100 := by
  have := round2_div100 (n : ℤ)
  push_cast at this ⊢
  exact this

theorem round3_natDiv1000 (n : Nat) : round3 ((n : ℚ) / 1000) = (n : ℚ) / 1000 := by
  unfold round3
  rw [div_mul_cancel₀ _ (by norm_num : (1000 : ℚ) ≠ 0)]
  rw [show ((n : ℚ)) = ((n : ℤ) : ℚ) by push_cast; ring, round_intCast]

theorem round1_close (x : ℚ) : |round1 x - x| ≤ 1 / 20 := by
  unfold round1
  have h := abs_sub_round (x * 10)
  rw [abs_sub_comm] at h
  have h10 : |(10 : ℚ)| = 10 := by norm_num
  calc |(round (x * 10) : ℚ) / 10 - x|
      = |((round (x * 10) : ℚ) - x * 10) / 10| := by ring_nf
    _ = |(round (x * 10) : ℚ) - x * 10| / 10 := by rw [abs_div, h10]
    _ ≤ (1 / 2) / 10 := by
        apply div_le_div_of_nonneg_right h (by norm_num) |>.trans_eq rfl
    _ = 1 / 20 := by norm_num

/-! ### Status decoding -/

theorem statusOf_eq_firstBitStatus : ∀ b, b < 256 → statusOf b = firstBitStatus b := by
  decide

/-! ### Byte arithmetic -/

theorem shiftLeft_or_eq_mul_add (a b : Nat) (hb : b < 256) :
    a <<< 8 ||| b = a * 256 + b := by
  rw [Nat.shiftLeft_eq]
  have h := Nat.mul_add_lt_is_or (i := 8) (by exact_mod_cast hb) a
  calc a * 2 ^ 8 ||| b = 2 ^ 8 * a ||| b := by rw [Nat.mul_comm]
    _ = 2 ^ 8 * a + b := h.symm
    _ = a * 256 + b := by ring_nf

/-! ### The CRC register stays a 16-bit value -/

theorem crcBit_lt (c : Nat) (h : c < 65536) : crcBit c < 65536 := by
  unfold crcBit
  have h16 : (2 : Nat) ^ 16 = 65536 := by norm_num
  split
  · have hx : c / 2 ^^^ 0xA001 < 2 ^ 16 :=
      Nat.xor_lt_two_pow (by rw [h16]; omega) (by rw [h16]; norm_num)
    rw [h16] at hx
    exact hx
  · omega

theorem crcByte_lt (c b : Nat) (hc : c < 65536) (hb : b < 65536) :
    crcByte c b < 65536 := by
  unfold crcByte
  have h16 : (2 : Nat) ^ 16 = 65536 := by norm_num
  have h0 : c ^^^ b < 65536 := by
    have hx : c ^^^ b < 2 ^ 16 :=
      Nat.xor_lt_two_pow (by rw [h16]; omega) (by rw [h16]; omega)
    rw [h16] at hx
    exact hx
  have h1 := crcBit_lt _ h0
  have h2 := crcBit_lt _ h1
  have h3 := crcBit_lt _ h2
  have h4 := crcBit_lt _ h3
  have h5 := crcBit_lt _ h4
  have h6 := crcBit_lt _ h5
  have h7 := crcBit_lt _ h6
  have h8 := crcBit_lt _ h7
  show crcBit^[8] (c ^^^ b) < 65536
  rw [show (8 : Nat) = 7 + 1 from rfl, Function.iterate_succ_apply']
  rw [show (7 : Nat) = 6 + 1 from rfl, Function.iterate_succ_apply']
  rw [show (6 : Nat) = 5 + 1 from rfl, Function.iterate_succ_apply']
  rw [show (5 : Nat) = 4 + 1 from rfl, Function.iterate_succ_apply']
  rw [show (4 : Nat) = 3 + 1 from rfl, Function.iterate_succ_apply']
  rw [show (3 : Nat) = 2 + 1 from rfl, Function.iterate_succ_apply']
  rw [show (2 : Nat) = 1 + 1 from rfl, Function.iterate_succ_apply']
  rw [show (1 : Nat) = 0 + 1 from rfl, Function.iterate_succ_apply']
  simp only [Function.iterate_zero, id_eq]
  exact crcBit_lt _ (crcBit_lt _ (crcBit_lt _ (crcBit_lt _
    (crcBit_lt _ (crcBit_lt _ (crcBit_lt _ (crcBit_lt _ h0)))))))

theorem foldl_crcByte_lt :
    ∀ (l : List Nat) (c : Nat), c < 65536 → (∀ b ∈ l, b < 65536) →
      l.foldl crcByte c < 65536 := by
  intro l
  induction l with
  | nil => intro c hc _; simpa using hc
  | cons x xs IH =>
    intro c hc hb
    simp only [List.foldl_cons]
    exact IH (crcByte c x) (crcByte_lt _ _ hc (hb x (by simp)))
      (fun b h => hb b (by simp [h]))

theorem calc_crc16_lt (data : List Nat) (len : Nat)
    (hb : ∀ b ∈ data, b < 65536) : calc_crc16 data len < 65536 :=
  foldl_crcByte_lt _ _ (by norm_num) (fun b h => hb b (List.take_subset _ _ h))

/-! ### Scanning a correctly framed message -/

theorem mkFrame_cons (u fc : Nat) (payload : List Nat) :
    mkFrame u fc payload =
      u :: fc :: payload.length ::
        (payload ++ [calc_crc16 ([u, fc, payload.length] ++ payload) (3 + payload.length) / 256,
          calc_crc16 ([u, fc, payload.length] ++ payload) (3 + payload.length) % 256]) := rfl

theorem mkFrame_length (u fc : Nat) (payload : List Nat) :
    (mkFrame u fc payload).length = 5 + payload.length := by
  rw [mkFrame_cons]
  simp only [List.length_cons, List.length_append, List.length_cons, List.length_nil]
  omega

theorem scanStep_mkFrame (u fc : Nat) (payload : List Nat)
    (hfc : fc = 1 ∨ fc = 4) (hu : u < 256) (hpl : 2 ≤ payload.length)
    (hpl255 : payload.length ≤ 255) (hb : ∀ b ∈ payload, b < 256) :
    scanStep (mkFrame u fc payload) =
      ScanResult.frame ⟨u, fc, payload.length, payload⟩ := by
  set body : List Nat := [u, fc, payload.length] ++ payload with hbody
  set c : Nat := calc_crc16 body (3 + payload.length) with hc
  have hblen : body.length = 3 + payload.length := by
    rw [hbody]
    simp only [List.length_append, List.length_cons, List.length_nil]
  have hclt : c < 65536 := by
    rw [hc]
    apply calc_crc16_lt
    intro b hbmem
    rw [hbody] at hbmem
    rcases List.mem_append.mp hbmem with hh | hh
    · simp only [List.mem_cons, List.not_mem_nil, or_false] at hh
      rcases hh with rfl | rfl | rfl
      · omega
      · rcases hfc with rfl | rfl <;> norm_num
      · omega
    · exact lt_trans (hb b hh) (by norm_num)
  have hframe : mkFrame u fc payload = body ++ [c / 256, c % 256] := rfl
  have hlen : (mkFrame u fc payload).length = 5 + payload.length :=
    mkFrame_length u fc payload
  have hg0 : (mkFrame u fc payload).getD 0 0 = u := by rw [mkFrame_cons]; rfl
  have hg1 : (mkFrame u fc payload).getD 1 0 = fc := by rw [mkFrame_cons]; rfl
  have hg2 : (mkFrame u fc payload).getD 2 0 = payload.length := by rw [mkFrame_cons]; rfl
  have hg3 : (mkFrame u fc payload).getD (3 + payload.length) 0 = c / 256 := by
    rw [hframe, List.getD_append_right body _ 0 _ (by omega), hblen]
    simp
  have hg4 : (mkFrame u fc payload).getD (4 + payload.length) 0 = c % 256 := by
    rw [hframe, List.getD_append_right body _ 0 _ (by omega), hblen]
    have h41 : 4 + payload.length - (3 + payload.length) = 1 := by omega
    rw [h41]
    rfl
  have hcrc : calc_crc16 (mkFrame u fc payload) (3 + payload.length) = c := by
    rw [hframe, calc_crc16_append (by omega), ← hc]
  have hpay : ((mkFrame u fc payload).drop 3).take payload.length = payload := by
    rw [mkFrame_cons]
    show (payload ++ _).take payload.length = payload
    exact List.take_left payload _
  unfold scanStep
  rw [hg2, hg0, hg1, hg3, hg4, hcrc, hpay]
  rw [if_pos (by rw [hlen]; omega), if_pos hfc, if_pos (by rw [hlen]; omega),
    if_pos hlen.ge, if_pos (by omega)]

theorem decodeModbus_mkFrame (u fc : Nat) (payload : List Nat) (ts : TrashState)
    (hfc : fc = 1 ∨ fc = 4) (hu : u < 256) (hpl : 2 ≤ payload.length)
    (hpl255 : payload.length ≤ 255) (hb : ∀ b ∈ payload, b < 256) :
    decodeModbus ts (mkFrame u fc payload) =
      (recordsFor ⟨u, fc, payload.length, payload⟩, (closeRun ts).1, (closeRun ts).2, []) := by
  rw [decodeModbus_frame ts (scanStep_mkFrame u fc payload hfc hu hpl hpl255 hb)]
  have hdrop : (mkFrame u fc payload).drop (5 + payload.length) = [] := by
    apply List.drop_eq_nil_of_le
    rw [mkFrame_length]
  rw [hdrop, decodeModbus_needMore _ (scanStep_short (by simp))]
  simp

/-! ### Concrete example frames -/

/-- The AlarmStatus example payload: 18 bytes, all zero except byte 8 = 0x10. -/
def exAlarmPayload : List Nat :=
  [0, 0, 0, 0, 0, 0, 0, 0, 0x10, 0, 0, 0, 0, 0, 0, 0, 0, 0]

/-- A correctly framed FC01 AlarmStatus response from unit 0 carrying
`exAlarmPayload` (CRC 9370 = 0x249A, transmitted high byte first). -/
def exAlarmFrame : List Nat := [0, 1, 18] ++ exAlarmPayload ++ [36, 154]

theorem exAlarmFrame_eq_mkFrame : exAlarmFrame = mkFrame 0 1 exAlarmPayload := by decide

theorem scanStep_exAlarmFrame :
    scanStep exAlarmFrame = ScanResult.frame ⟨0, 1, 18, exAlarmPayload⟩ := by decide

/-- Evaluating a full decode pass on the concrete alarm frame, from any
trash state: one alarm record, and an open trash run (if any) is closed. -/
theorem decodeModbus_exAlarmFrame (ts : TrashState) :
    decodeModbus ts exAlarmFrame =
      ([Rec.alarm 0 exAlarmPayload], (closeRun ts).1, (closeRun ts).2, []) := by
  rw [exAlarmFrame_eq_mkFrame,
    decodeModbus_mkFrame 0 1 exAlarmPayload ts (Or.inl rfl) (by norm_num) (by decide)
      (by decide) (by decide)]
  have hrec : recordsFor ⟨0, 1, exAlarmPayload.length, exAlarmPayload⟩ =
      [Rec.alarm 0 exAlarmPayload] := by decide
  rw [hrec]

/-- C1 counterexample input: a correctly framed FC04 response with byte
count 10 (not a recognized length), unit 0, all-zero payload, CRC
64723 = 0xFCD3 transmitted high byte first. -/
def exUnknownFrame : List Nat := [0, 4, 10, 0, 0, 0, 0, 0, 0, 0, 0, 0, 0, 252, 211]

/-- C1: the claim states that a valid-CRC frame whose `(functionCode,
byteCount)` is not `(4,36)`, `(4,52)` or `(1,18)` — here function code 4
with byte count 10 — is still emitted as an `Unrecognized` record and never
silently dropped. On the code this is false: the frame's CRC validates
(`accepts`), the whole frame is consumed, and the decoder emits no record at
all — the output is `([], [], initTS, [])`, i.e. the frame is silently
dropped. -/
theorem C1_counterexample :
    exUnknownFrame.length = 15 ∧ accepts exUnknownFrame ∧
      decodeModbus initTS exUnknownFrame = ([], [], initTS, []) := by
  refine ⟨by decide, by decide, by decide⟩

/-- C1 (amended): a correctly framed message with function code 1 or 4 whose
byte count is not one of the dispatched lengths (18 for FC01; 36 or 52 for
FC04) is consumed whole by the decode pass with no record emitted and no
trash logged: it is silently dropped, not passed through as an
`Unrecognized` record. -/
theorem C1_theorem (u fc : Nat) (payload : List Nat)
    (hfc : fc = 1 ∨ fc = 4) (hu : u < 256) (hpl : 2 ≤ payload.length)
    (hpl255 : payload.length ≤ 255) (hb : ∀ b ∈ payload, b < 256)
    (hunk : ¬((fc = 1 ∧ payload.length = 18) ∨
      (fc = 4 ∧ (payload.length = 36 ∨ payload.length = 52)))) :
    decodeModbus initTS (mkFrame u fc payload) = ([], [], initTS, []) := by
  rw [decodeModbus_mkFrame u fc payload initTS hfc hu hpl hpl255 hb]
  have hrec : recordsFor ⟨u, fc, payload.length, payload⟩ = [] := by
    rcases hfc with rfl | rfl
    · have h18 : payload.length ≠ 18 := fun h => (not_or.mp hunk).1 ⟨rfl, h⟩
      simp [recordsFor, h18]
    · have h36 : payload.length ≠ 36 := fun h => (not_or.mp hunk).2 ⟨rfl, Or.inl h⟩
      have h52 : payload.length ≠ 52 := fun h => (not_or.mp hunk).2 ⟨rfl, Or.inr h⟩
      simp [recordsFor, h36, h52]
  rw [hrec]
  rfl

/-- C1 witness: the amended statement at a concrete FC04 frame with byte
count 10. -/
theorem C1_witness :
    decodeModbus initTS (mkFrame 0 4 [1, 2, 3, 4, 5, 6, 7, 8, 9, 10]) =
      ([], [], initTS, []) :=
  C1_theorem 0 4 [1, 2, 3, 4, 5, 6, 7, 8, 9, 10] (Or.inr rfl) (by norm_num)
    (by norm_num) (by norm_num) (by decide) (by decide)

/-- C2: the claim states that a scan pass ending in `NeedMoreData` flushes
any open `TrashRun` to the Trash Log at that point. On the code this is
false: after the pass over `[255, 255, 255, 255]` (which discards two bytes
and then hits `needMoreData`), no diagnostic entry has been completed (the
completed-entries component is `[]`) and the run is still open
(`trashdata = true`) — nothing was flushed at pass end. -/
theorem C2_counterexample :
    (decodeModbus initTS [255, 255, 255, 255]).2.1 = [] ∧
      (decodeModbus initTS [255, 255, 255, 255]).2.2.1 =
        TrashState.mk true [255, 255] ∧
      (decodeModbus initTS [255, 255, 255, 255]).2.2.2 = [255, 255] := by
  refine ⟨by decide, by decide, by decide⟩

/-- C2 (amended): consecutive discarded bytes are coalesced into a single
trash entry, never one entry per byte; the entry is completed only when a
later valid frame is decoded, not when a pass ends in `NeedMoreData`. Part
one: a run of junk bytes followed by a valid frame produces exactly one
completed entry holding the entire run. Part two: a pass over junk alone
ends with no completed entry and the run still open. -/
theorem C2_theorem (a : List Nat) (hj : ∀ b ∈ a, b ≠ 1 ∧ b ≠ 4) :
    (a ≠ [] →
      decodeModbus initTS (a ++ exAlarmFrame) =
        ([Rec.alarm 0 exAlarmPayload], [a], ⟨false, a⟩, [])) ∧
    (3 ≤ a.length →
      (decodeModbus initTS a).2.1 = [] ∧
        (decodeModbus initTS a).2.2.1.trashdata = true) := by
  constructor
  · intro hne
    rw [decodeModbus_junk_run a initTS exAlarmFrame hj (by decide) (by decide)
      (by decide), pushAll_initTS hne, decodeModbus_exAlarmFrame ⟨true, a⟩]
    simp [closeRun]
  · intro h3
    rw [decodeModbus_junk initTS hj h3]
    refine ⟨rfl, ?_⟩
    have htne : a.take (a.length - 2) ≠ [] := by
      intro h
      rcases List.take_eq_nil_iff.mp h with h' | h'
      · omega
      · subst h'; simp at h3
    rw [pushAll_initTS htne]

/-- C2 witness: part one of the amended statement at a concrete two-byte
junk run followed by the concrete alarm frame. -/
theorem C2_witness :
    decodeModbus initTS ([255, 254] ++ exAlarmFrame) =
      ([Rec.alarm 0 exAlarmPayload], [[255, 254]], ⟨false, [255, 254]⟩, []) :=
  (C2_theorem [255, 254] (by decide)).1 (by decide)

/-- C3: the claim states that a decode pass over a buffer of length N with
no valid frames terminates after discarding all N bytes as one TrashRun. On
the code this is false for N = 3: the pass over `[255, 255, 255]` discards
exactly one byte and returns with the last two bytes still buffered (they
could be the start of a frame), so not all N bytes are discarded. -/
theorem C3_counterexample :
    decodeModbus initTS [255, 255, 255] = ([], [], ⟨true, [255]⟩, [255, 255]) ∧
      ([255, 255] : List Nat) ≠ [] := by
  refine ⟨by decide, by decide⟩

/-- C3 (amended): a decode pass over a buffer (length ≥ 3) in which no byte
is a recognized function code terminates after discarding all but the final
two bytes as one coalesced TrashRun, leaving those two bytes buffered; each
failed attempt advances by exactly one byte, so the pass always terminates
(`decodeModbus` is total). -/
theorem C3_theorem (buf : List Nat) (hj : ∀ b ∈ buf, b ≠ 1 ∧ b ≠ 4)
    (hl : 3 ≤ buf.length) :
    decodeModbus initTS buf =
      ([], [], ⟨true, buf.take (buf.length - 2)⟩, buf.drop (buf.length - 2)) := by
  have htne : buf.take (buf.length - 2) ≠ [] := by
    intro h
    rcases List.take_eq_nil_iff.mp h with h' | h'
    · omega
    · subst h'; simp at hl
  rw [decodeModbus_junk initTS hj hl, pushAll_initTS htne]

/-- C3 witness: the amended statement at a concrete five-byte junk buffer. -/
theorem C3_witness :
    decodeModbus initTS [9, 8, 7, 6, 5] = ([], [], ⟨true, [9, 8, 7]⟩, [6, 5]) :=
  (C3_theorem [9, 8, 7, 6, 5] (by decide) (by decide)).trans (by decide)

/-- C4: chunk-boundary independence. Feeding the bytes of any sequence of
chunks (with idle signals — empty chunks — interleaved anywhere) and
draining with one trailing idle emits exactly the same ordered record
sequence as feeding the whole concatenation as one chunk followed by one
idle. -/
theorem C4_theorem (ops : List (List Nat)) :
    (runFeeds initState (ops ++ [[]])).2 =
      (runFeeds initState ([ops.flatten] ++ [[]])).2 := by
  rw [runFeeds_absorb, runFeeds_absorb]
  simp [initState]

/-- C5: the scanner accepts a candidate frame (function code 1 or 4, full
candidate available) exactly when the Modbus CRC (polynomial 0xA001,
initial value 0xFFFF, byte-reflected — the modelled `calc_crc16`) of the
frame bytes excluding the trailing CRC field equals the two trailing bytes
read as `(first_trailing_byte << 8) | second_trailing_byte` — high byte
first. The final conjunct pins the modelled CRC to the standard
CRC-16/MODBUS check value over ASCII `123456789`. -/
theorem C5_theorem (buf : List Nat) (bc : Nat)
    (h7 : 7 ≤ buf.length) (hfc : buf.getD 1 0 = 1 ∨ buf.getD 1 0 = 4)
    (hbc : buf.getD 2 0 = bc) (hlen : 5 + bc ≤ buf.length)
    (hb2 : buf.getD (4 + bc) 0 < 256) :
    (accepts buf ↔
      calc_crc16 buf (3 + bc) =
        (buf.getD (3 + bc) 0) <<< 8 ||| buf.getD (4 + bc) 0) ∧
    calc_crc16 [49, 50, 51, 52, 53, 54, 55, 56, 57] 9 = 0x4B37 := by
  refine ⟨?_, by decide⟩
  rw [shiftLeft_or_eq_mul_add _ _ hb2]
  subst hbc
  unfold accepts scanStep
  rw [if_pos (by omega), if_pos hfc, if_pos h7, if_pos hlen]
  constructor
  · rintro ⟨fi, hfi⟩
    by_cases hcrc : buf.getD (3 + buf.getD 2 0) 0 * 0x0100 + buf.getD (4 + buf.getD 2 0) 0 =
        calc_crc16 buf (3 + buf.getD 2 0)
    · omega
    · rw [if_neg hcrc] at hfi
      exact ScanResult.noConfusion hfi
  · intro hc
    rw [if_pos (by omega)]
    exact ⟨_, rfl⟩

/-- C5 witness: the acceptance criterion at the concrete alarm frame
(byte count 18). -/
theorem C5_witness :
    (accepts exAlarmFrame ↔
      calc_crc16 exAlarmFrame 21 =
        (exAlarmFrame.getD 21 0) <<< 8 ||| exAlarmFrame.getD 22 0) ∧
    calc_crc16 [49, 50, 51, 52, 53, 54, 55, 56, 57] 9 = 0x4B37 :=
  C5_theorem exAlarmFrame 18 (by decide) (by decide) (by decide) (by decide) (by decide)

/-- C6 example payload: a 36-byte MainInfo payload with word 0 = 2500
(bytes 9, 196) and word 1 = 0xFF38 (bytes 255, 56), all other words zero. -/
def exMain36 : List Nat := [9, 196, 255, 56] ++ List.replicate 32 0

/-- C6: MainInfo field formulas. For every 36-byte payload,
`pack_voltage = word0 / 100`; `current = signed16(word1) / 100` with the
two's-complement decode; `power = round(-current * pack_voltage)`; and
`cell_delta = word10 - word11` as a raw integer difference. In particular,
word 0 = 2500 gives `pack_voltage = 25.00`, word 1 = 0xFF38 gives
`current = -2.00`, and `power = 50`. -/
theorem C6_theorem (d : List Nat) (h : d.length = 36) :
    ((processMainInfo d).pack_voltage = (mainWord d 0 : ℚ) / 100 ∧
     (processMainInfo d).current = (signed16 (mainWord d 1) : ℚ) / 100 ∧
     (processMainInfo d).power =
       round (-(processMainInfo d).current * (processMainInfo d).pack_voltage) ∧
     (processMainInfo d).cell_delta = (mainWord d 10 : ℤ) - (mainWord d 11 : ℤ)) ∧
    ((processMainInfo exMain36).pack_voltage = 25 ∧
     (processMainInfo exMain36).current = -2 ∧
     (processMainInfo exMain36).power = 50) := by
  constructor
  · refine ⟨round2_natDiv100 _, round2_div100 _, rfl, rfl⟩
  · have hw0 : mainWord exMain36 0 = 2500 := by decide
    have hw1 : mainWord exMain36 1 = 65336 := by decide
    have hpv : (processMainInfo exMain36).pack_voltage = 25 := by
      show round2 ((mainWord exMain36 0 : ℚ) / 100) = 25
      rw [hw0]
      norm_num [round2]
    have hcur : (processMainInfo exMain36).current = -2 := by
      simp only [processMainInfo, hw1]
      norm_num [round2, round_eq]
    refine ⟨hpv, hcur, ?_⟩
    have hpow : (processMainInfo exMain36).power =
        round (-(processMainInfo exMain36).current * (processMainInfo exMain36).pack_voltage) :=
      rfl
    rw [hpow, hcur, hpv]
    norm_num

/-- C6 witness: the statement at the concrete example payload. -/
theorem C6_witness :
    (processMainInfo exMain36).pack_voltage = (mainWord exMain36 0 : ℚ) / 100 ∧
      (processMainInfo exMain36).current = -2 ∧
      (processMainInfo exMain36).power = 50 :=
  ⟨(C6_theorem exMain36 (by decide)).1.1,
   (C6_theorem exMain36 (by decide)).2.2.1,
   (C6_theorem exMain36 (by decide)).2.2.2⟩

/-- C7 counterexample input: a 52-byte CellInfo payload that is all zero
except bytes 48-49 = 0x0B54 (word 2900). -/
def exCell52 : List Nat := List.replicate 48 0 ++ [11, 84, 0, 0]

/-- C7: the claim states that `ambient_temp` is decoded from the word
immediately following the 4 temperature words, i.e. bytes 40-41, as
`word/10 - 273.15`. On the code this is false: in `exCell52` the word at
bytes 40-41 is 0 (formula value -273.15), yet the decoder publishes
`ambient_temp = 16.9`, read from bytes 48-49 (word 2900). -/
theorem C7_counterexample :
    wordAt exCell52 40 = 0 ∧
      (processCellInfo exCell52).ambient_temp = 169 / 10 ∧
      (processCellInfo exCell52).ambient_temp ≠ (wordAt exCell52 40 : ℚ) / 10 - 273.15 := by
  have hw48 : wordAt exCell52 48 = 2900 := by decide
  have hw40 : wordAt exCell52 40 = 0 := by decide
  have hamb : (processCellInfo exCell52).ambient_temp = 169 / 10 := by
    show round1 ((wordAt exCell52 48 : ℚ) / 10 - 273.15) = 169 / 10
    rw [hw48]
    norm_num [round1, round_eq]
  refine ⟨hw40, hamb, ?_⟩
  rw [hamb, hw40]
  norm_num

/-- C7 (amended): for every 52-byte CellInfo payload, cells 1..16 are the
words at bytes 0-31 divided by 1000 exactly; cell temperatures 1..4 come
from the words at bytes 32-39, the ambient temperature from the word at
bytes 48-49 (the four words at bytes 40-47 are skipped, contrary to the
claim's "immediately following"), and the MOSFET temperature from the final
word at bytes 50-51 — each as `word/10 - 273.15` rounded to one decimal
place, hence within 1/20 of the un-rounded formula value. -/
theorem C7_theorem (d : List Nat) (h : d.length = 52) :
    (∀ k, k < 16 →
      (processCellInfo d).cells.getD k 0 = (wordAt d (2 * k) : ℚ) / 1000) ∧
    (∀ j, j < 4 →
      (processCellInfo d).cell_temps.getD j 0 =
          round1 ((wordAt d (32 + 2 * j) : ℚ) / 10 - 273.15) ∧
        |(processCellInfo d).cell_temps.getD j 0 -
          ((wordAt d (32 + 2 * j) : ℚ) / 10 - 273.15)| ≤ 1 / 20) ∧
    ((processCellInfo d).ambient_temp = round1 ((wordAt d 48 : ℚ) / 10 - 273.15) ∧
      |(processCellInfo d).ambient_temp - ((wordAt d 48 : ℚ) / 10 - 273.15)| ≤ 1 / 20) ∧
    ((processCellInfo d).mosfet_temp = round1 ((wordAt d 50 : ℚ) / 10 - 273.15) ∧
      |(processCellInfo d).mosfet_temp - ((wordAt d 50 : ℚ) / 10 - 273.15)| ≤ 1 / 20) := by
  refine ⟨?_, ?_, ⟨rfl, round1_close _⟩, ⟨rfl, round1_close _⟩⟩
  · intro k hk
    show ((List.range 16).map (fun k => round3 ((wordAt d (2 * k) : ℚ) / 1000))).getD k 0 = _
    rw [List.getD_eq_getElem _ _ (by simpa using hk)]
    simp only [List.getElem_map, List.getElem_range]
    exact round3_natDiv1000 _
  · intro j hj
    constructor
    · show ((List.range 4).map
        (fun j => round1 ((wordAt d (32 + 2 * j) : ℚ) / 10 - 273.15))).getD j 0 = _
      rw [List.getD_eq_getElem _ _ (by simpa using hj)]
      simp only [List.getElem_map, List.getElem_range]
    · show |((List.range 4).map
        (fun j => round1 ((wordAt d (32 + 2 * j) : ℚ) / 10 - 273.15))).getD j 0 - _| ≤ _
      rw [List.getD_eq_getElem _ _ (by simpa using hj)]
      simp only [List.getElem_map, List.getElem_range]
      exact round1_close _

/-- C7 witness: the amended statement at the concrete example payload. -/
theorem C7_witness :
    (processCellInfo exCell52).ambient_temp =
        round1 ((wordAt exCell52 48 : ℚ) / 10 - 273.15) ∧
      (processCellInfo exCell52).cells.getD 0 0 = (wordAt exCell52 0 : ℚ) / 1000 :=
  ⟨(C7_theorem exCell52 (by decide)).2.2.1.1,
   (C7_theorem exCell52 (by decide)).1 0 (by norm_num)⟩

/-- C8 counterexample input: an 18-byte AlarmStatus payload, all zero except
byte 12 = 0x04 (bit 2, the charge-overcurrent-2 protection flag). -/
def exAlarmB12 : List Nat := [0, 0, 0, 0, 0, 0, 0, 0, 0, 0, 0, 0, 4, 0, 0, 0, 0, 0]

/-- C8: the claim states that every bit counted in `protection_count` is
also counted in `alarm_count` (strict subset). On the code this is false:
with only byte 12 bit 2 set, `protection_count = 1` while `alarm_count = 0`,
so a bit contributes to the protection count without contributing to the
alarm count. -/
theorem C8_counterexample :
    (processAlarmStatus exAlarmB12).protection_count = 1 ∧
      (processAlarmStatus exAlarmB12).alarm_count = 0 := by
  refine ⟨by decide, by decide⟩

/-- C8 (amended): `alarm_count` and `protection_count` are population counts
over the fixed bit-position sets `alarmIdx` (27 bits) and `protIdx`
(16 bits) of payload bytes 9-14, but the protection set is not a subset of
the alarm set: exactly the three bits (12,2), (12,5) and (14,3) — the two
second-level overcurrent protections and the SOC protection — are counted
in `protection_count` and not in `alarm_count`; the other 13 protection
bits are shared. -/
theorem C8_theorem (d : List Nat) (h : d.length = 18) :
    (processAlarmStatus d).alarm_count = (alarmIdx.map (fun p => bitAt d p.1 p.2)).sum ∧
    (processAlarmStatus d).protection_count =
      (protIdx.map (fun p => bitAt d p.1 p.2)).sum ∧
    (∀ p ∈ protIdx, p ∈ alarmIdx ∨ p ∈ ([(12, 2), (12, 5), (14, 3)] : List (Nat × Nat))) ∧
    (∀ p ∈ ([(12, 2), (12, 5), (14, 3)] : List (Nat × Nat)),
      p ∈ protIdx ∧ ¬ p ∈ alarmIdx) := by
  exact ⟨rfl, rfl, by decide, by decide⟩

/-- C8 witness: the amended statement at the concrete byte-12 payload. -/
theorem C8_witness :
    (processAlarmStatus exAlarmB12).protection_count =
        (protIdx.map (fun p => bitAt exAlarmB12 p.1 p.2)).sum ∧
      ((12, 2) : Nat × Nat) ∈ protIdx ∧ ¬ ((12, 2) : Nat × Nat) ∈ alarmIdx :=
  ⟨(C8_theorem exAlarmB12 (by decide)).2.1,
   ((C8_theorem exAlarmB12 (by decide)).2.2.2 (12, 2) (by decide)).1,
   ((C8_theorem exAlarmB12 (by decide)).2.2.2 (12, 2) (by decide)).2⟩

/-- C9: the decoded operating status is the label of the first set bit of
payload byte 8 in the fixed priority order Discharge (bit 0), Charge
(bit 1), Floating charge (bit 2), Full charge (bit 3), Standby (bit 4),
Off (bit 5), with "Unknown" when none is set and no error on overlapping
bits; and the all-zero payload with byte 8 = 0x10 decodes to Standby with
`balancing_count = 0` and no balancing cells. -/
theorem C9_theorem (d : List Nat) (h : d.length = 18) (hb : d.getD 8 0 < 256) :
    (processAlarmStatus d).status = firstBitStatus (d.getD 8 0) ∧
    ((processAlarmStatus exAlarmPayload).status = "Standby" ∧
      (processAlarmStatus exAlarmPayload).balancing_count = 0 ∧
      (processAlarmStatus exAlarmPayload).balancing_cells = []) := by
  refine ⟨?_, by decide, by decide, by decide⟩
  show statusOf (d.getD 8 0) = firstBitStatus (d.getD 8 0)
  exact statusOf_eq_firstBitStatus _ hb

/-- C9 witness: the statement at the concrete example payload. -/
theorem C9_witness :
    (processAlarmStatus exAlarmPayload).status =
        firstBitStatus (exAlarmPayload.getD 8 0) ∧
      (processAlarmStatus exAlarmPayload).status = "Standby" :=
  ⟨(C9_theorem exAlarmPayload (by decide) (by decide)).1,
   (C9_theorem exAlarmPayload (by decide) (by decide)).2.1⟩

/-- C10: payload byte 13 is never read by the AlarmStatus decoder — two
18-byte payloads that agree everywhere except byte 13 produce identical
published values for every field, including the alarm, protection and
failure counts. -/
theorem C10_theorem (d1 d2 : List Nat) (h1 : d1.length = 18) (h2 : d2.length = 18)
    (hagree : ∀ i, i < 18 → i ≠ 13 → d1.getD i 0 = d2.getD i 0) :
    processAlarmStatus d1 = processAlarmStatus d2 := by
  have e0 := hagree 0 (by omega) (by omega)
  have e1 := hagree 1 (by omega) (by omega)
  have e2 := hagree 2 (by omega) (by omega)
  have e3 := hagree 3 (by omega) (by omega)
  have e4 := hagree 4 (by omega) (by omega)
  have e5 := hagree 5 (by omega) (by omega)
  have e6 := hagree 6 (by omega) (by omega)
  have e7 := hagree 7 (by omega) (by omega)
  have e8 := hagree 8 (by omega) (by omega)
  have e9 := hagree 9 (by omega) (by omega)
  have e10 := hagree 10 (by omega) (by omega)
  have e11 := hagree 11 (by omega) (by omega)
  have e12 := hagree 12 (by omega) (by omega)
  have e14 := hagree 14 (by omega) (by omega)
  have e15 := hagree 15 (by omega) (by omega)
  have e16 := hagree 16 (by omega) (by omega)
  have e17 := hagree 17 (by omega) (by omega)
  simp only [processAlarmStatus, bitAt, e0, e1, e2, e3, e4, e5, e6, e7, e8, e9,
    e10, e11, e12, e14, e15, e16, e17]

/-- C10 witness: two concrete payloads differing only in byte 13 (0 versus
255) decode identically. -/
theorem C10_witness :
    processAlarmStatus (List.replicate 18 0) =
      processAlarmStatus [0, 0, 0, 0, 0, 0, 0, 0, 0, 0, 0, 0, 0, 255, 0, 0, 0, 0] :=
  C10_theorem _ _ (by decide) (by decide) (by decide)
